import Mathlib

/-!
Verification of the API-Key Pool Manager (`app/service/key/key_manager.py`,
`app/handler/retry_handler.py`) against its design specification.

The Python classes are shallowly embedded: the mutable attributes of
`KeyManager` become fields of `PoolState`, Python dicts (which preserve
insertion order) become ordered association lists, Python sets become
characteristic functions, `datetime` timestamps become natural numbers, and
each mutating method becomes a state-transformer function.  Methods that can
raise (`KeyError`) return `Option`.  Global `settings` values
(`MAX_FAILURES`, `ENABLE_KEY_FREEZE_ON_429`, `KEY_FREEZE_DURATION_SECONDS`,
`MAX_RETRIES`) are passed explicitly or stored in the state, mirroring how
the source reads them.
-/

/-- Ordered dictionary lookup, `d[k]` / `d.get(k)`: first (only) binding of
`k` in an insertion-ordered association list. -/
def dictGet : List (String × Nat) → String → Option Nat
  | [], _ => none
  | kv :: rest, k => if kv.1 = k then some kv.2 else dictGet rest k

/-- Python `d.get(k, dflt)`. -/
def dictGetD (l : List (String × Nat)) (k : String) (dflt : Nat) : Nat :=
  (dictGet l k).getD dflt

/-- Python dict assignment `d[k] = v`: update the existing binding in place
(keeping its position) or append a new binding at the end. -/
def dictSet : List (String × Nat) → String → Nat → List (String × Nat)
  | [], k, v => [(k, v)]
  | kv :: rest, k, v => if kv.1 = k then (k, v) :: rest else kv :: dictSet rest k v

/-- Python dict comprehension `{key: 0 for key in keys}` (later duplicates
overwrite earlier ones, order of first insertion kept). -/
def dictOfZeros (keys : List String) : List (String × Nat) :=
  keys.foldl (fun acc k => dictSet acc k 0) []

theorem dictGet_dictSet_self (l : List (String × Nat)) (k : String) (v : Nat) :
    dictGet (dictSet l k v) k = some v := by
  induction l with
  | nil => simp [dictSet, dictGet]
  | cons kv rest ih =>
      by_cases h : kv.1 = k
      · simp [dictSet, h, dictGet]
      · simp [dictSet, h, dictGet, ih]

theorem dictGet_dictSet_other (l : List (String × Nat)) (k j : String) (v : Nat)
    (h : j ≠ k) : dictGet (dictSet l k v) j = dictGet l j := by
  induction l with
  | nil =>
      simp only [dictSet, dictGet]
      rw [if_neg (fun hh : k = j => h hh.symm)]
  | cons kv rest ih =>
      simp only [dictSet]
      by_cases hk : kv.1 = k
      · rw [if_pos hk]
        have hkj : ¬ kv.1 = j := by rw [hk]; exact fun hh => h hh.symm
        simp only [dictGet]
        rw [if_neg (fun hh : k = j => h hh.symm), if_neg hkj]
      · rw [if_neg hk]
        simp only [dictGet]
        by_cases hj : kv.1 = j
        · rw [if_pos hj, if_pos hj]
        · rw [if_neg hj, if_neg hj]
          exact ih

theorem isSome_dictGet_dictSet (l : List (String × Nat)) (k j : String) (v : Nat)
    (h : (dictGet l j).isSome) : (dictGet (dictSet l k v) j).isSome := by
  by_cases hj : j = k
  · subst hj; simp [dictGet_dictSet_self]
  · rwa [dictGet_dictSet_other l k j v hj]

theorem isSome_dictGet_dictOfZeros (keys : List String) (k : String)
    (h : k ∈ keys) : (dictGet (dictOfZeros keys) k).isSome := by
  suffices H : ∀ (ks : List String) (acc : List (String × Nat)),
      k ∈ ks ∨ (dictGet acc k).isSome →
      (dictGet (ks.foldl (fun acc j => dictSet acc j 0) acc) k).isSome by
    exact H keys [] (Or.inl h)
  intro ks
  induction ks with
  | nil =>
      intro acc hmem
      rcases hmem with hmem | hmem
      · cases hmem
      · simpa using hmem
  | cons x rest ih =>
      intro acc hmem
      simp only [List.foldl_cons]
      apply ih
      rcases hmem with hmem | hmem
      · rcases List.mem_cons.mp hmem with hx | hx
        · right; subst hx; simp [dictGet_dictSet_self]
        · left; exact hx
      · right; exact isSome_dictGet_dictSet _ _ _ _ hmem

theorem dictGet_map_zero (l : List (String × Nat)) (k : String) :
    dictGet (l.map (fun kv => (kv.1, 0))) k = (dictGet l k).map (fun _ => 0) := by
  induction l with
  | nil => simp [dictGet]
  | cons kv rest ih =>
      by_cases h : kv.1 = k
      · simp [dictGet, h]
      · simp [dictGet, h, ih]

/-- The mutable per-pool state of `KeyManager` (`__init__`, lines 16-91):
the loaded key list, the insertion-ordered failure-count dict, the
auto-freeze dict `frozen_keys` (key ↦ `frozen_until`), the manual-freeze and
legacy `disabled_keys` sets, the vertex-pool counterparts used by the
claims, the instance copy of `MAX_FAILURES`, and the precheck flags. -/
structure PoolState where
  apiKeys : List String
  fail : List (String × Nat)
  frozen : String → Option Nat
  manuallyFrozen : String → Bool
  disabled : String → Bool
  vertexFrozen : String → Option Nat
  vertexFail : List (String × Nat)
  MAX : Nat
  precheckEnabled : Bool
  precheckInProgress : Bool

/-- `KeyManager.__init__(api_keys, vertex_api_keys)`: every loaded key starts
with failure count 0, all freeze structures empty, `disabled_keys` empty. -/
def initState (keys vkeys : List String) (maxFailures : Nat) (pe : Bool) : PoolState where
  apiKeys := keys
  fail := dictOfZeros keys
  frozen := fun _ => none
  manuallyFrozen := fun _ => false
  disabled := fun _ => false
  vertexFrozen := fun _ => none
  vertexFail := dictOfZeros vkeys
  MAX := maxFailures
  precheckEnabled := pe
  precheckInProgress := false

/-- `KeyManager.freeze_key(key, duration_seconds)` (lines 580-590): record
`frozen_keys[key] = now + duration`. -/
def freeze_key (s : PoolState) (k : String) (dur now : Nat) : PoolState :=
  { s with frozen := fun j => if j = k then some (now + dur) else s.frozen j }

/-- `KeyManager.freeze_vertex_key` (lines 592-601). -/
def freeze_vertex_key (s : PoolState) (k : String) (dur now : Nat) : PoolState :=
  { s with vertexFrozen := fun j => if j = k then some (now + dur) else s.vertexFrozen j }

/-- `KeyManager.unfreeze_key(key)` (lines 603-616): remove `key` from both
`frozen_keys` and `manually_frozen_keys`. -/
def unfreeze_key (s : PoolState) (k : String) : PoolState :=
  { s with
    frozen := fun j => if j = k then none else s.frozen j
    manuallyFrozen := fun j => if j = k then false else s.manuallyFrozen j }

/-- `KeyManager.manually_freeze_key(key)` (lines 670-675); `disable_key` is
an alias for it. -/
def manually_freeze_key (s : PoolState) (k : String) : PoolState :=
  { s with manuallyFrozen := fun j => if j = k then true else s.manuallyFrozen j }

/-- `KeyManager.is_key_disabled(key)` (lines 701-704): member of
`manually_frozen_keys` or of the legacy `disabled_keys` set. -/
def is_key_disabled (s : PoolState) (k : String) : Bool :=
  s.manuallyFrozen k || s.disabled k

/-- Boolean value returned by `KeyManager.is_key_frozen(key)` (lines
633-649): manual freeze, else auto-frozen with an unexpired deadline
(`datetime.now() >= frozen_keys[key]` means expired). -/
def is_key_frozen (s : PoolState) (k : String) (now : Nat) : Bool :=
  if s.manuallyFrozen k then true
  else
    match s.frozen k with
    | none => false
    | some u => if u ≤ now then false else true

/-- Lazy-expiry side effect of `is_key_frozen` (lines 644-648) and of the
listing traversals (lines 500-524): drop an auto-freeze entry whose deadline
has passed. -/
def expire_frozen_key (s : PoolState) (k : String) (now : Nat) : PoolState :=
  if s.manuallyFrozen k then s
  else
    match s.frozen k with
    | none => s
    | some u =>
        if u ≤ now then { s with frozen := fun j => if j = k then none else s.frozen j }
        else s

/-- `KeyManager.is_key_valid(key)` (lines 170-182): disabled check, then
frozen check, then `key_failure_counts[key] < MAX_FAILURES`; the dict index
raises `KeyError` (modelled as `none`) for a key absent from the map. -/
def is_key_valid (s : PoolState) (k : String) (now : Nat) : Option Bool :=
  if is_key_disabled s k then some false
  else if is_key_frozen s k now then some false
  else (dictGet s.fail k).map (fun c => decide (c < s.MAX))

/-- `KeyManager.handle_429_error(api_key, is_vertex)` (lines 759-773):
when `ENABLE_KEY_FREEZE_ON_429` is off, return `False` without touching any
state; otherwise freeze the key (default duration) in the selected pool and
return `True`. -/
def handle_429_error (s : PoolState) (k : String) (isVertex freezeEnabled : Bool)
    (dur now : Nat) : Bool × PoolState :=
  if !freezeEnabled then (false, s)
  else if isVertex then (true, freeze_vertex_key s k dur now)
  else (true, freeze_key s k dur now)

/-- `KeyManager.handle_api_failure(api_key, retries)` (lines 341-352):
`key_failure_counts[api_key] += 1` raises `KeyError` (`none`) if the key is
not in the map; otherwise increment and, if `retries < MAX_RETRIES`, return
`get_next_working_key()` on the updated state (the selector is passed as an
explicit function, faithful to the method call), else return `""`. -/
def handle_api_failure (s : PoolState) (k : String) (retries maxRetries : Nat)
    (selector : PoolState → String) : Option (PoolState × String) :=
  match dictGet s.fail k with
  | none => none
  | some c =>
      let s2 := { s with fail := dictSet s.fail k (c + 1) }
      some (s2, if retries < maxRetries then selector s2 else "")

/-- `KeyManager.reset_key_failure_count(key)` (lines 210-220): reset to 0
only if present. -/
def reset_key_failure_count (s : PoolState) (k : String) : PoolState :=
  match dictGet s.fail k with
  | none => s
  | some _ => { s with fail := dictSet s.fail k 0 }

/-- `KeyManager.reset_failure_counts()` (lines 198-202): zero every value. -/
def reset_failure_counts (s : PoolState) : PoolState :=
  { s with fail := s.fail.map (fun kv => (kv.1, 0)) }

/-- Failure branch of `KeyManager._validate_key_with_api` (lines 1186-1194):
increment the count if the key is present, else insert it with count 1. -/
def validate_key_failure_update (s : PoolState) (k : String) : PoolState :=
  { s with fail := dictSet s.fail k (dictGetD s.fail k 0 + 1) }

/-- State mutation performed by `KeyManager.manual_trigger_precheck` before
it runs the precheck (lines 1251-1306): refuse when prechecking is disabled
or already in progress; otherwise count the loaded keys with
`fail_count < MAX_FAILURES` and, if none remain, reset the first five keys
of the failure-count dict to 0. -/
def manual_trigger_precheck_reset (s : PoolState) : PoolState :=
  if !s.precheckEnabled then s
  else if s.precheckInProgress then s
  else
    let available := (s.apiKeys.filter (fun k => decide (dictGetD s.fail k 0 < s.MAX))).length
    if available = 0 then
      let firstFive := (s.fail.take 5).map (fun kv => kv.1)
      { s with fail := firstFive.foldl (fun acc k => dictSet acc k 0) s.fail }
    else s

/-- One state mutation of the primary/vertex pool maps, covering every
operation in the source that touches `key_failure_counts`, `frozen_keys`,
`manually_frozen_keys`, `disabled_keys` or their vertex counterparts.  The
selector argument of `handle_api_failure` is quantified, so the relation
over-approximates the concrete behaviours. -/
inductive Step : PoolState → PoolState → Prop
  | freeze (s : PoolState) (k : String) (dur now : Nat) :
      Step s (freeze_key s k dur now)
  | vfreeze (s : PoolState) (k : String) (dur now : Nat) :
      Step s (freeze_vertex_key s k dur now)
  | unfreeze (s : PoolState) (k : String) : Step s (unfreeze_key s k)
  | mfreeze (s : PoolState) (k : String) : Step s (manually_freeze_key s k)
  | h429 (s : PoolState) (k : String) (iv fe : Bool) (dur now : Nat) :
      Step s (handle_429_error s k iv fe dur now).2
  | apiFail (s : PoolState) (k : String) (retries maxRetries : Nat)
      (selector : PoolState → String) (s2 : PoolState) (ret : String) :
      handle_api_failure s k retries maxRetries selector = some (s2, ret) →
      Step s s2
  | resetOne (s : PoolState) (k : String) : Step s (reset_key_failure_count s k)
  | resetAll (s : PoolState) : Step s (reset_failure_counts s)
  | validateFail (s : PoolState) (k : String) : Step s (validate_key_failure_update s k)
  | expire (s : PoolState) (k : String) (now : Nat) : Step s (expire_frozen_key s k now)
  | manualReset (s : PoolState) : Step s (manual_trigger_precheck_reset s)
  | setInProgress (s : PoolState) (b : Bool) : Step s { s with precheckInProgress := b }
  | setEnabled (s : PoolState) (b : Bool) : Step s { s with precheckEnabled := b }

/-- States of the primary pool reachable from a fresh `KeyManager`. -/
inductive Reachable : PoolState → Prop
  | init (keys vkeys : List String) (maxFailures : Nat) (pe : Bool) :
      Reachable (initState keys vkeys maxFailures pe)
  | step {s t : PoolState} : Reachable s → Step s t → Reachable t

/-- Invariant carried by every reachable state: the legacy `disabled_keys`
set stays empty (no operation ever adds to it) and every loaded key has an
entry in the failure-count dict. -/
def PoolInv (s : PoolState) : Prop :=
  (∀ k, s.disabled k = false) ∧ (∀ k ∈ s.apiKeys, (dictGet s.fail k).isSome)

theorem isSome_dictGet_foldl_dictSet (ks : List String) (acc : List (String × Nat))
    (k : String) (h : (dictGet acc k).isSome) :
    (dictGet (ks.foldl (fun a j => dictSet a j 0) acc) k).isSome := by
  induction ks generalizing acc with
  | nil => simpa using h
  | cons x rest ih =>
      simp only [List.foldl_cons]
      exact ih _ (isSome_dictGet_dictSet _ _ _ _ h)

theorem step_inv {s t : PoolState} (hinv : PoolInv s) (hstep : Step s t) : PoolInv t := by
  obtain ⟨hdis, hmem⟩ := hinv
  have hkeep : PoolInv s := ⟨hdis, hmem⟩
  have hset : ∀ (k : String) (v : Nat),
      PoolInv { s with fail := dictSet s.fail k v } :=
    fun k v => ⟨hdis, fun j hj => isSome_dictGet_dictSet _ _ _ _ (hmem j hj)⟩
  cases hstep with
  | freeze k dur now => exact ⟨hdis, hmem⟩
  | vfreeze k dur now => exact ⟨hdis, hmem⟩
  | unfreeze k => exact ⟨hdis, hmem⟩
  | mfreeze k => exact ⟨hdis, hmem⟩
  | h429 k iv fe dur now =>
      cases fe <;> cases iv <;> exact ⟨hdis, hmem⟩
  | apiFail k retries maxRetries selector s2 ret h =>
      simp only [handle_api_failure] at h
      cases hg : dictGet s.fail k with
      | none => rw [hg] at h; simp at h
      | some c =>
          rw [hg] at h
          simp only [Option.some.injEq, Prod.mk.injEq] at h
          obtain ⟨hs2, -⟩ := h
          rw [← hs2]
          exact hset k (c + 1)
  | resetOne k =>
      unfold reset_key_failure_count
      cases hg : dictGet s.fail k with
      | none => exact hkeep
      | some c => exact hset k 0
  | resetAll =>
      refine ⟨hdis, fun j hj => ?_⟩
      have hj2 := hmem j hj
      obtain ⟨c, hc⟩ := Option.isSome_iff_exists.mp hj2
      show (dictGet (s.fail.map (fun kv => (kv.1, 0))) j).isSome
      rw [dictGet_map_zero, hc]
      rfl
  | validateFail k => exact hset k (dictGetD s.fail k 0 + 1)
  | expire k now =>
      unfold expire_frozen_key
      split
      · exact hkeep
      · split
        · exact hkeep
        · split
          · exact ⟨hdis, hmem⟩
          · exact hkeep
  | manualReset =>
      unfold manual_trigger_precheck_reset
      split
      · exact hkeep
      · split
        · exact hkeep
        · dsimp only
          split
          · exact ⟨hdis, fun j hj => isSome_dictGet_foldl_dictSet _ _ _ (hmem j hj)⟩
          · exact hkeep
  | setInProgress b => exact ⟨hdis, hmem⟩
  | setEnabled b => exact ⟨hdis, hmem⟩

theorem reachable_inv {s : PoolState} (h : Reachable s) : PoolInv s := by
  induction h with
  | init keys vkeys maxFailures pe =>
      refine ⟨fun k => rfl, fun k hk => ?_⟩
      exact isSome_dictGet_dictOfZeros keys k hk
  | step hr hstep ih => exact step_inv ih hstep

/-- C1: in every reachable state of the primary pool and for every loaded
key `k`, `is_key_valid(k)` returns `True` iff `is_key_frozen(k)` returns
`False` and `k`'s failure count is strictly below `MAX_FAILURES`; the
disabled-keys check never changes the result because `disabled_keys` stays
empty and manually frozen keys are already frozen. -/
theorem c1_is_key_valid_iff (s : PoolState) (h : Reachable s) (k : String)
    (hk : k ∈ s.apiKeys) (now : Nat) :
    is_key_valid s k now = some true ↔
      (is_key_frozen s k now = false ∧ dictGetD s.fail k 0 < s.MAX) := by
  obtain ⟨hdis, hmem⟩ := reachable_inv h
  unfold is_key_valid is_key_disabled
  rw [hdis k]
  by_cases hm : s.manuallyFrozen k = true
  · simp [hm, is_key_frozen]
  · have hm2 : s.manuallyFrozen k = false := by simpa using hm
    simp only [hm2, Bool.false_or, Bool.false_eq_true, if_false]
    by_cases hf : is_key_frozen s k now = true
    · simp [hf]
    · have hf2 : is_key_frozen s k now = false := by simpa using hf
      simp only [hf2, Bool.false_eq_true, if_false]
      obtain ⟨c, hc⟩ := Option.isSome_iff_exists.mp (hmem k hk)
      rw [hc]
      simp [dictGetD, hc]

/-- C1 witness: the freshly initialized single-key pool. -/
theorem c1_witness :
    ("a" ∈ (initState ["a"] [] 3 false).apiKeys) ∧
    (is_key_valid (initState ["a"] [] 3 false) "a" 0 = some true ↔
      (is_key_frozen (initState ["a"] [] 3 false) "a" 0 = false ∧
        dictGetD (initState ["a"] [] 3 false).fail "a" 0 <
          (initState ["a"] [] 3 false).MAX)) :=
  ⟨by decide,
   c1_is_key_valid_iff _ (Reachable.init ["a"] [] 3 false) "a" (by decide) 0⟩

/-- C6 counterexample: a manually frozen key is frozen before a
`freeze_key`/`unfreeze_key` pair but unfrozen after it, so the pair does not
restore `is_key_frozen` to its prior value. -/
theorem c6_counterexample :
    is_key_frozen (manually_freeze_key (initState ["a"] [] 3 false) "a") "a" 0 = true ∧
    is_key_frozen
      (unfreeze_key
        (freeze_key (manually_freeze_key (initState ["a"] [] 3 false) "a") "a" 60 0) "a")
      "a" 0 = false := by
  constructor <;> decide

/-- C6 (amended): `freeze_key(k, d)` followed by `unfreeze_key(k)` always
leaves `is_key_frozen(k)` false, because `unfreeze_key` clears both the
auto-freeze entry and the manual-freeze flag; this equals the prior value
exactly when `k` was not frozen beforehand. -/
theorem c6_freeze_unfreeze (s : PoolState) (k : String) (dur now : Nat) :
    is_key_frozen (unfreeze_key (freeze_key s k dur now) k) k now = false ∧
    (is_key_frozen (unfreeze_key (freeze_key s k dur now) k) k now =
        is_key_frozen s k now ↔
      is_key_frozen s k now = false) := by
  have h1 : is_key_frozen (unfreeze_key (freeze_key s k dur now) k) k now = false := by
    simp [is_key_frozen, unfreeze_key, freeze_key]
  refine ⟨h1, ?_⟩
  rw [h1]
  exact ⟨fun hh => hh.symm, fun hh => hh.symm⟩

/-- C8: `handle_429_error(k)` (primary pool) returns `True` and records
`frozen_keys[k] = now + duration` when `ENABLE_KEY_FREEZE_ON_429` is set,
returns `False` leaving the state untouched otherwise, and never changes any
failure count. -/
theorem c8_handle_429 (s : PoolState) (k : String) (fe : Bool) (dur now : Nat) :
    (handle_429_error s k false fe dur now).1 = fe ∧
    (handle_429_error s k false fe dur now).2.fail = s.fail ∧
    (handle_429_error s k false fe dur now).2.vertexFail = s.vertexFail ∧
    (fe = true →
      (handle_429_error s k false fe dur now).2.frozen k = some (now + dur) ∧
      ∀ j, j ≠ k → (handle_429_error s k false fe dur now).2.frozen j = s.frozen j) ∧
    (fe = false → (handle_429_error s k false fe dur now).2 = s) := by
  cases fe with
  | false => simp [handle_429_error]
  | true =>
      refine ⟨rfl, rfl, rfl, fun _ => ⟨?_, fun j hj => ?_⟩, fun hh => by cases hh⟩
      · show (if k = k then some (now + dur) else s.frozen k) = some (now + dur)
        rw [if_pos rfl]
      · show (if j = k then some (now + dur) else s.frozen j) = s.frozen j
        rw [if_neg hj]

/-- C8 witness: concrete pool, freeze-on-429 enabled. -/
theorem c8_witness :
    (handle_429_error (initState ["a"] [] 3 false) "a" false true 60 5).1 = true ∧
    (handle_429_error (initState ["a"] [] 3 false) "a" false true 60 5).2.frozen "a" =
      some 65 := by
  have h := c8_handle_429 (initState ["a"] [] 3 false) "a" true 60 5
  exact ⟨h.1, by simpa using (h.2.2.2.1 rfl).1⟩

/-- C9: `handle_api_failure(k, r)` raises `KeyError` (modelled as `none`)
exactly when `k` has no entry in the failure-count map; for a key with an
entry it returns normally, so the operation is safe precisely under the
precondition that `k` is a tracked key. -/
theorem c9_handle_api_failure_keyerror (s : PoolState) (k : String)
    (retries maxRetries : Nat) (selector : PoolState → String) :
    handle_api_failure s k retries maxRetries selector = none ↔
      dictGet s.fail k = none := by
  unfold handle_api_failure
  cases hg : dictGet s.fail k <;> simp

/-- `next(self.key_cycle)` (`itertools.cycle` over `api_keys`) as observed
through `KeyManager.get_next_key` (lines 147-156): `counter` counts the
`next()` calls already made, the call returns `api_keys[counter % n]` and
bumps the counter; on an empty list the iterator is exhausted (`none`). -/
def get_next_key (keys : List String) (counter : Nat) : Option (String × Nat) :=
  match keys.get? (counter % keys.length) with
  | some k => some (k, counter + 1)
  | none => none

/-- The `while True` body of `KeyManager._get_next_working_key_legacy`
(lines 303-314): return the current key if valid, otherwise advance the
cycle and return the drawn key unconditionally as soon as it equals the
initially drawn key.  `fuel` bounds the number of iterations so the
embedding is total; the theorems show `keys.length + 1` iterations always
suffice. -/
def legacy_aux (keys : List String) (valid : String → Bool) (initial : String) :
    String → Nat → Nat → Option String
  | _, _, 0 => none
  | current, counter, fuel + 1 =>
    if valid current then some current
    else
      match get_next_key keys counter with
      | none => none
      | some (k, c2) =>
          if k = initial then some k else legacy_aux keys valid initial k c2 fuel

/-- `KeyManager._get_next_working_key_legacy` (lines 303-314): draw
`initial_key = get_next_key()`, then run the loop.  `valid` abstracts
`is_key_valid`, which depends only on the key string in a fixed state. -/
def get_next_working_key_legacy (keys : List String) (valid : String → Bool)
    (counter fuel : Nat) : Option String :=
  match get_next_key keys counter with
  | none => none
  | some (k, c2) => legacy_aux keys valid k k c2 fuel

/-- Key drawn by the `(i+1)`-st `next()` call after `counter` calls have
happened: the rotation visits `visit keys counter 0`, `visit keys counter 1`,
and so on. -/
def visit (keys : List String) (counter i : Nat) : String :=
  (keys.get? ((counter + i) % keys.length)).getD ""

theorem get?_visit {keys : List String} (h : keys ≠ []) (c i : Nat) :
    keys.get? ((c + i) % keys.length) = some (visit keys c i) := by
  have hlt : (c + i) % keys.length < keys.length :=
    Nat.mod_lt _ (List.length_pos.mpr h)
  cases hg : keys.get? ((c + i) % keys.length) with
  | none =>
      have := List.get?_eq_none.mp hg
      omega
  | some a =>
      unfold visit
      rw [hg]
      rfl

theorem visit_length_eq (keys : List String) (c : Nat) :
    visit keys c keys.length = visit keys c 0 := by
  simp [visit, Nat.add_mod_right]

theorem legacy_aux_succ (keys : List String) (valid : String → Bool)
    (initial current : String) (counter fuel : Nat) :
    legacy_aux keys valid initial current counter (fuel + 1) =
      if valid current then some current
      else
        match get_next_key keys counter with
        | none => none
        | some (k, c2) =>
            if k = initial then some k else legacy_aux keys valid initial k c2 fuel := rfl

theorem legacy_aux_spec (keys : List String) (valid : String → Bool) (c0 : Nat)
    (hne : keys ≠ []) :
    ∀ (fuel i : Nat), i ≤ keys.length → keys.length + 1 - i ≤ fuel →
      (∀ j, 0 < j → j ≤ i → visit keys c0 j ≠ visit keys c0 0) →
      ∃ m, i ≤ m ∧ m ≤ keys.length ∧
        legacy_aux keys valid (visit keys c0 0) (visit keys c0 i) (c0 + i + 1) fuel =
          some (visit keys c0 m) ∧
        (∀ j, i ≤ j → j < m → valid (visit keys c0 j) = false) ∧
        (valid (visit keys c0 m) = true ∨
          (0 < m ∧ visit keys c0 m = visit keys c0 0)) := by
  intro fuel
  induction fuel with
  | zero => intro i hi hf hprev; omega
  | succ fuel ih =>
      intro i hi hf hprev
      by_cases hval : valid (visit keys c0 i) = true
      · refine ⟨i, le_refl i, hi, ?_, ?_, Or.inl hval⟩
        · rw [legacy_aux_succ, if_pos hval]
        · intro j h1 h2; omega
      · have hval2 : valid (visit keys c0 i) = false := by simpa using hval
        have hn : 0 < keys.length := List.length_pos.mpr hne
        have hin : i < keys.length := by
          rcases Nat.lt_or_ge i keys.length with hlt | hge
          · exact hlt
          · exfalso
            exact hprev keys.length (by omega) (by omega) (visit_length_eq keys c0)
        have hnext : get_next_key keys (c0 + i + 1) =
            some (visit keys c0 (i + 1), c0 + i + 2) := by
          show (match keys.get? ((c0 + i + 1) % keys.length) with
            | some k => some (k, c0 + i + 1 + 1)
            | none => none) = some (visit keys c0 (i + 1), c0 + i + 2)
          have harith : c0 + i + 1 = c0 + (i + 1) := by omega
          rw [harith, get?_visit hne c0 (i + 1)]
          rfl
        by_cases heq : visit keys c0 (i + 1) = visit keys c0 0
        · refine ⟨i + 1, by omega, by omega, ?_, ?_, Or.inr ⟨by omega, heq⟩⟩
          · rw [legacy_aux_succ, if_neg (by simp [hval2]), hnext]
            show (if visit keys c0 (i + 1) = visit keys c0 0
              then some (visit keys c0 (i + 1))
              else legacy_aux keys valid (visit keys c0 0) (visit keys c0 (i + 1))
                (c0 + i + 2) fuel) = some (visit keys c0 (i + 1))
            rw [if_pos heq]
          · intro j h1 h2
            have hji : j = i := by omega
            subst hji
            exact hval2
        · have hprev2 : ∀ j, 0 < j → j ≤ i + 1 → visit keys c0 j ≠ visit keys c0 0 := by
            intro j hj1 hj2
            rcases Nat.lt_or_ge j (i + 1) with hh | hh
            · exact hprev j hj1 (by omega)
            · have hji : j = i + 1 := by omega
              subst hji
              exact heq
          obtain ⟨m, hm1, hm2, hmeq, hall, hlast⟩ := ih (i + 1) (by omega) (by omega) hprev2
          refine ⟨m, by omega, hm2, ?_, ?_, hlast⟩
          · rw [legacy_aux_succ, if_neg (by simp [hval2]), hnext]
            show (if visit keys c0 (i + 1) = visit keys c0 0
              then some (visit keys c0 (i + 1))
              else legacy_aux keys valid (visit keys c0 0) (visit keys c0 (i + 1))
                (c0 + i + 2) fuel) = some (visit keys c0 m)
            rw [if_neg heq]
            exact hmeq
          · intro j h1 h2
            rcases Nat.lt_or_ge j (i + 1) with hh | hh
            · have hji : j = i := by omega
              subst hji
              exact hval2
            · exact hall j hh h2

/-- C2: with precheck disabled and a non-empty key list, the legacy selector
terminates within `|keys| + 1` iterations and returns the first valid key of
the rotation sequence starting at the initially drawn key; when no valid key
appears before the rotation revisits the initially drawn key, it returns
that initial key regardless of validity (degraded mode).  In particular a
single-key pool with an invalid key returns that key and never loops. -/
theorem c2_legacy_loop (keys : List String) (valid : String → Bool) (counter : Nat)
    (hne : keys ≠ []) :
    ∃ m, m ≤ keys.length ∧
      get_next_working_key_legacy keys valid counter (keys.length + 1) =
        some (visit keys counter m) ∧
      (∀ j, j < m → valid (visit keys counter j) = false) ∧
      (valid (visit keys counter m) = true ∨
        (0 < m ∧ visit keys counter m = visit keys counter 0)) := by
  have h0 : get_next_key keys counter = some (visit keys counter 0, counter + 1) := by
    show (match keys.get? (counter % keys.length) with
      | some k => some (k, counter + 1)
      | none => none) = some (visit keys counter 0, counter + 1)
    have harith : counter % keys.length = (counter + 0) % keys.length := by
      rw [Nat.add_zero]
    rw [harith, get?_visit hne counter 0]
  obtain ⟨m, -, hm2, heq, hall, hlast⟩ :=
    legacy_aux_spec keys valid counter hne (keys.length + 1) 0 (by omega) (by omega)
      (by intro j hj1 hj2; omega)
  refine ⟨m, hm2, ?_, fun j hj => hall j (by omega) hj, hlast⟩
  unfold get_next_working_key_legacy
  rw [h0]
  exact heq

/-- C2 witness: single-key pool whose only key is invalid; the selector
returns that key in degraded mode after the full cycle. -/
theorem c2_witness :
    (["k"] : List String) ≠ [] ∧
    ∃ m, m ≤ (["k"] : List String).length ∧
      get_next_working_key_legacy ["k"] (fun _ => false) 0
          ((["k"] : List String).length + 1) =
        some (visit ["k"] 0 m) ∧
      (∀ j, j < m → (fun _ => false) (visit ["k"] 0 j) = false) ∧
      ((fun _ => false) (visit ["k"] 0 m) = true ∨
        (0 < m ∧ visit ["k"] 0 m = visit ["k"] 0 0)) :=
  ⟨by simp, c2_legacy_loop ["k"] (fun _ => false) 0 (by simp)⟩

/-- ASCII case of Python `str.lower` as used on error messages. -/
def lowerChar (c : Char) : Char :=
  if 'A' ≤ c ∧ c ≤ 'Z' then Char.ofNat (c.toNat + 32) else c

/-- Python `s.lower()` on the ASCII fragment relevant to the matched
markers. -/
def pyLower (s : String) : String := String.mk (s.data.map lowerChar)

/-- Python substring test `sub in s`. -/
def pySubstr (sub s : String) : Bool :=
  s.data.tails.any (fun t => sub.data.isPrefixOf t)

/-- 429 classification of `RetryHandler.__call__` (retry_handler.py line
41), identical to `_validate_key_with_api` (key_manager.py line 1180):
`"429" in error_str or "Too Many Requests" in error_str or
"quota" in error_str.lower()`. -/
def is_429_error (s : String) : Bool :=
  pySubstr "429" s || pySubstr "Too Many Requests" s || pySubstr "quota" (pyLower s)

/-- Modelled from the spec words only (for comparison): an error string is
treated as 429 iff it contains `"429"`, `"Too Many Requests"` or `"quota"`,
all matched case-insensitively. -/
def is_429_error_spec (s : String) : Bool :=
  pySubstr "429" (pyLower s) || pySubstr "too many requests" (pyLower s) ||
    pySubstr "quota" (pyLower s)

/-- Specification-level substring containment. -/
def ContainsSub (sub s : String) : Prop :=
  ∃ pre post, s.data = pre ++ sub.data ++ post

theorem pySubstr_iff (sub s : String) : pySubstr sub s = true ↔ ContainsSub sub s := by
  unfold pySubstr ContainsSub
  rw [List.any_eq_true]
  constructor
  · rintro ⟨t, ht, hp⟩
    rw [List.mem_tails] at ht
    obtain ⟨pre, hpre⟩ := ht
    rw [List.isPrefixOf_iff_prefix] at hp
    obtain ⟨post, hpost⟩ := hp
    exact ⟨pre, post, by rw [← hpre, ← hpost, List.append_assoc]⟩
  · rintro ⟨pre, post, hsp⟩
    refine ⟨sub.data ++ post, ?_, ?_⟩
    · rw [List.mem_tails]
      exact ⟨pre, by rw [hsp, List.append_assoc]⟩
    · rw [List.isPrefixOf_iff_prefix]
      exact ⟨post, rfl⟩

/-- C3 counterexample: the all-lowercase message `"too many requests"` is
not classified as a 429 by the retry layer, though a case-insensitive match
of `"Too Many Requests"` (as the claim states) would accept it. -/
theorem c3_counterexample :
    is_429_error "too many requests" = false ∧
    is_429_error_spec "too many requests" = true := by
  constructor <;> decide

/-- C3 (amended): the retry layer treats `s` as a 429 iff `s` contains
`"429"` or `"Too Many Requests"` — both matched case-sensitively — or
`"quota"` matched case-insensitively. -/
theorem c3_is_429_iff (s : String) :
    is_429_error s = true ↔
      (ContainsSub "429" s ∨ ContainsSub "Too Many Requests" s ∨
        ContainsSub "quota" (pyLower s)) := by
  unfold is_429_error
  simp only [Bool.or_eq_true, pySubstr_iff]
  tauto

/-- Python `int(q)` (truncation toward zero) on a rational. -/
def pyIntOfRat (q : ℚ) : ℤ := if q < 0 then -⌊-q⌋ else ⌊q⌋

/-- `KeyManager._calculate_precheck_trigger` (lines 824-844), as a function
of the enablement flag, `len(current_batch)` and `trigger_ratio` (the float
ratio is modelled as a rational): threshold 0 when disabled or when the
current batch is empty, else `max(1, int(len * ratio))`. -/
def calculate_precheck_trigger (enabled : Bool) (batchLen : Nat) (ratio : ℚ) : ℤ :=
  if enabled = false then 0
  else if batchLen = 0 then 0
  else max 1 (pyIntOfRat (batchLen * ratio))

/-- C4 counterexample: with precheck enabled and an empty current batch the
stored threshold is 0, not `max(1, ⌊0 × ratio⌋) = 1` as the claim requires
for every batch including the empty one. -/
theorem c4_counterexample :
    calculate_precheck_trigger true 0 (1/2) = 0 ∧
    (max 1 ⌊(0 : ℚ) * (1/2)⌋ : ℤ) = 1 ∧
    calculate_precheck_trigger true 0 (1/2) ≠ (max 1 ⌊(0 : ℚ) * (1/2)⌋ : ℤ) := by
  refine ⟨rfl, by norm_num, ?_⟩
  rw [show calculate_precheck_trigger true 0 (1/2) = 0 from rfl]
  norm_num

/-- C4 (amended): while precheck is enabled, a recomputation stores
`max(1, ⌊len(current) × ratio⌋)` whenever the current batch is non-empty,
and stores 0 for the empty batch. -/
theorem c4_trigger_formula (batchLen : Nat) (ratio : ℚ) (hr : 0 ≤ ratio) :
    calculate_precheck_trigger true 0 ratio = 0 ∧
    (0 < batchLen →
      calculate_precheck_trigger true batchLen ratio =
        max 1 ⌊(batchLen : ℚ) * ratio⌋) := by
  refine ⟨rfl, fun hpos => ?_⟩
  unfold calculate_precheck_trigger pyIntOfRat
  rw [if_neg (by simp), if_neg (by omega),
    if_neg (not_lt.mpr (mul_nonneg (Nat.cast_nonneg _) hr))]

/-- C4 witness: a 12-key batch with ratio 1/2 yields threshold 6; the empty
batch yields 0. -/
theorem c4_witness :
    (0 : ℚ) ≤ 1/2 ∧
    (calculate_precheck_trigger true 0 (1/2) = 0 ∧
      (0 < 12 → calculate_precheck_trigger true 12 (1/2) =
        max 1 ⌊(12 : ℚ) * (1/2)⌋)) :=
  ⟨by norm_num, c4_trigger_formula 12 (1/2) (by norm_num)⟩

/-- The three precheck parameters stored on `KeyManager`
(`precheck_enabled`, `precheck_count`, `precheck_trigger_ratio`). -/
structure PrecheckConfig where
  enabled : Bool
  count : ℤ
  ratio : ℚ

/-- `enabled` branch of `update_precheck_config` (lines 1206-1210); the
second component is the running `config_changed` flag. -/
def upd_enabled (cfg : PrecheckConfig) (enabled : Option Bool) : PrecheckConfig × Bool :=
  match enabled with
  | some e => if e ≠ cfg.enabled then ({ cfg with enabled := e }, true) else (cfg, false)
  | none => (cfg, false)

/-- `count` branch of `update_precheck_config` (lines 1212-1216): store
`max(10, count)` — a lower clamp only. -/
def upd_count (p : PrecheckConfig × Bool) (count : Option ℤ) : PrecheckConfig × Bool :=
  match count with
  | some c => if c ≠ p.1.count then ({ p.1 with count := max 10 c }, true) else p
  | none => p

/-- `trigger_ratio` branch of `update_precheck_config` (lines 1218-1222):
store `max(0.1, min(1.0, ratio))`. -/
def upd_ratio (p : PrecheckConfig × Bool) (ratio : Option ℚ) : PrecheckConfig × Bool :=
  match ratio with
  | some r => if r ≠ p.1.ratio then ({ p.1 with ratio := max (1/10) (min 1 r) }, true) else p
  | none => p

/-- `KeyManager.update_precheck_config(enabled, count, trigger_ratio)`
(lines 1198-1249) restricted to its effect on the stored parameters:
the three sequential updates, then — when anything changed — disabling
precheck if the key list is empty (`_should_enable_precheck`).  The config
persistence and the re-precheck task do not touch these fields. -/
def update_precheck_config (cfg : PrecheckConfig) (numKeys : Nat)
    (enabled : Option Bool) (count : Option ℤ) (ratio : Option ℚ) : PrecheckConfig :=
  let p3 := upd_ratio (upd_count (upd_enabled cfg enabled) count) ratio
  if p3.2 = true ∧ p3.1.enabled = true ∧ numKeys = 0 then { p3.1 with enabled := false }
  else p3.1

theorem upd_enabled_count (cfg : PrecheckConfig) (enabled : Option Bool) :
    (upd_enabled cfg enabled).1.count = cfg.count := by
  cases enabled with
  | none => rfl
  | some e =>
      show (if e ≠ cfg.enabled then ({ cfg with enabled := e }, true)
        else (cfg, false)).1.count = cfg.count
      by_cases h : e ≠ cfg.enabled
      · rw [if_pos h]
      · rw [if_neg h]

theorem upd_enabled_ratio (cfg : PrecheckConfig) (enabled : Option Bool) :
    (upd_enabled cfg enabled).1.ratio = cfg.ratio := by
  cases enabled with
  | none => rfl
  | some e =>
      show (if e ≠ cfg.enabled then ({ cfg with enabled := e }, true)
        else (cfg, false)).1.ratio = cfg.ratio
      by_cases h : e ≠ cfg.enabled
      · rw [if_pos h]
      · rw [if_neg h]

theorem upd_count_count (p : PrecheckConfig × Bool) (c : ℤ) (hc : c ≠ p.1.count) :
    (upd_count p (some c)).1.count = max 10 c := by
  show (if c ≠ p.1.count then ({ p.1 with count := max 10 c }, true) else p).1.count =
    max 10 c
  rw [if_pos hc]

theorem upd_count_ratio (p : PrecheckConfig × Bool) (count : Option ℤ) :
    (upd_count p count).1.ratio = p.1.ratio := by
  cases count with
  | none => rfl
  | some c =>
      show (if c ≠ p.1.count then ({ p.1 with count := max 10 c }, true) else p).1.ratio =
        p.1.ratio
      by_cases h : c ≠ p.1.count
      · rw [if_pos h]
      · rw [if_neg h]

theorem upd_ratio_ratio (p : PrecheckConfig × Bool) (r : ℚ) (hr : r ≠ p.1.ratio) :
    (upd_ratio p (some r)).1.ratio = max (1/10) (min 1 r) := by
  show (if r ≠ p.1.ratio then ({ p.1 with ratio := max (1/10) (min 1 r) }, true)
    else p).1.ratio = max (1/10) (min 1 r)
  rw [if_pos hr]

theorem upd_ratio_count (p : PrecheckConfig × Bool) (ratio : Option ℚ) :
    (upd_ratio p ratio).1.count = p.1.count := by
  cases ratio with
  | none => rfl
  | some r =>
      show (if r ≠ p.1.ratio then ({ p.1 with ratio := max (1/10) (min 1 r) }, true)
        else p).1.count = p.1.count
      by_cases h : r ≠ p.1.ratio
      · rw [if_pos h]
      · rw [if_neg h]

theorem update_precheck_config_count (cfg : PrecheckConfig) (numKeys : Nat)
    (enabled : Option Bool) (count : Option ℤ) (ratio : Option ℚ) :
    (update_precheck_config cfg numKeys enabled count ratio).count =
      (upd_ratio (upd_count (upd_enabled cfg enabled) count) ratio).1.count := by
  unfold update_precheck_config
  dsimp only
  split <;> rfl

theorem update_precheck_config_ratio (cfg : PrecheckConfig) (numKeys : Nat)
    (enabled : Option Bool) (count : Option ℤ) (ratio : Option ℚ) :
    (update_precheck_config cfg numKeys enabled count ratio).ratio =
      (upd_ratio (upd_count (upd_enabled cfg enabled) count) ratio).1.ratio := by
  unfold update_precheck_config
  dsimp only
  split <;> rfl

/-- C5 counterexample: requesting `count = 2000` (current value 100) stores
2000, outside the claimed range [10, 1000] — the code clamps only from
below. -/
theorem c5_counterexample :
    (update_precheck_config ⟨false, 100, 1/2⟩ 5 none (some 2000) none).count = 2000 ∧
    ¬ ((update_precheck_config ⟨false, 100, 1/2⟩ 5 none (some 2000) none).count ≤ 1000) := by
  have h : (update_precheck_config ⟨false, 100, 1/2⟩ 5 none (some 2000) none).count = 2000 := by
    rw [update_precheck_config_count, upd_ratio_count,
      upd_count_count _ _ (by rw [upd_enabled_count]; norm_num)]
    omega
  exact ⟨h, by rw [h]; norm_num⟩

/-- C5 (amended): a provided `count` differing from the stored one is stored
as `max(10, count)` — clamped from below at 10 but with no upper clamp — and
a provided `trigger_ratio` differing from the stored one is clamped into
[0.1, 1.0]. -/
theorem c5_update_clamps (cfg : PrecheckConfig) (numKeys : Nat)
    (enabled : Option Bool) (c : ℤ) (r : ℚ)
    (hc : c ≠ cfg.count) (hr : r ≠ cfg.ratio) :
    (update_precheck_config cfg numKeys enabled (some c) (some r)).count = max 10 c ∧
    10 ≤ (update_precheck_config cfg numKeys enabled (some c) (some r)).count ∧
    (update_precheck_config cfg numKeys enabled (some c) (some r)).ratio =
      max (1/10) (min 1 r) ∧
    (1/10 : ℚ) ≤ (update_precheck_config cfg numKeys enabled (some c) (some r)).ratio ∧
    (update_precheck_config cfg numKeys enabled (some c) (some r)).ratio ≤ 1 := by
  have hcount : (update_precheck_config cfg numKeys enabled (some c) (some r)).count =
      max 10 c := by
    rw [update_precheck_config_count, upd_ratio_count,
      upd_count_count _ _ (by rw [upd_enabled_count]; exact hc)]
  have hratio : (update_precheck_config cfg numKeys enabled (some c) (some r)).ratio =
      max (1/10) (min 1 r) := by
    rw [update_precheck_config_ratio,
      upd_ratio_ratio _ _ (by rw [upd_count_ratio, upd_enabled_ratio]; exact hr)]
  refine ⟨hcount, ?_, hratio, ?_, ?_⟩
  · rw [hcount]; exact le_max_left _ _
  · rw [hratio]; exact le_max_left _ _
  · rw [hratio]
    rcases le_total r 1 with h1 | h1
    · rw [min_eq_right h1]
      rcases le_total r (1/10) with h2 | h2
      · rw [max_eq_left h2]; norm_num
      · rw [max_eq_right h2]; exact h1
    · rw [min_eq_left h1]
      rw [max_eq_right (by norm_num)]

/-- C5 witness: current config (disabled, count 100, ratio 1/2); request
count 2022 and ratio 3/4. -/
theorem c5_witness :
    ((2022 : ℤ) ≠ (⟨false, 100, 1/2⟩ : PrecheckConfig).count) ∧
    ((3/4 : ℚ) ≠ (⟨false, 100, 1/2⟩ : PrecheckConfig).ratio) ∧
    ((update_precheck_config ⟨false, 100, 1/2⟩ 5 none (some 2022) (some (3/4))).count =
        max 10 2022 ∧
      10 ≤ (update_precheck_config ⟨false, 100, 1/2⟩ 5 none (some 2022) (some (3/4))).count ∧
      (update_precheck_config ⟨false, 100, 1/2⟩ 5 none (some 2022) (some (3/4))).ratio =
        max (1/10) (min 1 (3/4)) ∧
      (1/10 : ℚ) ≤ (update_precheck_config ⟨false, 100, 1/2⟩ 5 none (some 2022) (some (3/4))).ratio ∧
      (update_precheck_config ⟨false, 100, 1/2⟩ 5 none (some 2022) (some (3/4))).ratio ≤ 1) :=
  ⟨by norm_num, by norm_num,
   c5_update_clamps ⟨false, 100, 1/2⟩ 5 none 2022 (3/4) (by norm_num) (by norm_num)⟩

theorem dictGet_foldl_zero (ks : List String) (l : List (String × Nat)) (j : String) :
    dictGet (ks.foldl (fun acc k => dictSet acc k 0) l) j =
      if j ∈ ks then some 0 else dictGet l j := by
  induction ks generalizing l with
  | nil => simp
  | cons x rest ih =>
      simp only [List.foldl_cons]
      rw [ih]
      by_cases hr : j ∈ rest
      · rw [if_pos hr, if_pos (List.mem_cons.mpr (Or.inr hr))]
      · rw [if_neg hr]
        by_cases hx : j = x
        · subst hx
          rw [dictGet_dictSet_self, if_pos (List.mem_cons.mpr (Or.inl rfl))]
        · rw [dictGet_dictSet_other _ _ _ _ hx,
            if_neg (fun hm => by rcases List.mem_cons.mp hm with h | h; exact hx h; exact hr h)]

/-- Two-key sample pool in which every loaded key has reached
`MAX_FAILURES`; `pe` selects the precheck-enabled flag. -/
def samplePool (pe : Bool) : PoolState where
  apiKeys := ["a", "b"]
  fail := [("a", 3), ("b", 4)]
  frozen := fun _ => none
  manuallyFrozen := fun _ => false
  disabled := fun _ => false
  vertexFrozen := fun _ => none
  vertexFail := []
  MAX := 3
  precheckEnabled := pe
  precheckInProgress := false

/-- C10 counterexample: with prechecking disabled, `manual_trigger_precheck`
returns early, so even when every loaded key's `fail_count` is at
`MAX_FAILURES` or above, the first key keeps its count instead of being
reset to 0. -/
theorem c10_counterexample :
    (∀ k ∈ ({ samplePool true with precheckEnabled := false } : PoolState).apiKeys,
      ({ samplePool true with precheckEnabled := false } : PoolState).MAX ≤
        dictGetD ({ samplePool true with precheckEnabled := false } : PoolState).fail k 0) ∧
    ("a" ∈ (({ samplePool true with precheckEnabled := false } : PoolState).fail.take 5).map
      (fun kv => kv.1)) ∧
    dictGet (manual_trigger_precheck_reset
      { samplePool true with precheckEnabled := false }).fail "a" = some 3 := by
  refine ⟨by decide, by decide, ?_⟩
  have h : manual_trigger_precheck_reset { samplePool true with precheckEnabled := false } =
      { samplePool true with precheckEnabled := false } := rfl
  rw [h]
  decide

/-- C10 (amended): when `manual_trigger_precheck` runs while precheck is
enabled, no precheck is in progress, and every loaded key's `fail_count` has
reached `MAX_FAILURES`, it silently resets the fail counts of the first five
keys of the failure-count map to 0 (all keys when fewer than five) and
leaves every other binding unchanged, before running the precheck. -/
theorem c10_manual_trigger_resets (s : PoolState)
    (hen : s.precheckEnabled = true) (hip : s.precheckInProgress = false)
    (hall : ∀ k ∈ s.apiKeys, s.MAX ≤ dictGetD s.fail k 0) :
    (∀ k ∈ (s.fail.take 5).map (fun kv => kv.1),
      dictGet (manual_trigger_precheck_reset s).fail k = some 0) ∧
    (∀ k, k ∉ (s.fail.take 5).map (fun kv => kv.1) →
      dictGet (manual_trigger_precheck_reset s).fail k = dictGet s.fail k) := by
  have hfilter : s.apiKeys.filter (fun k => decide (dictGetD s.fail k 0 < s.MAX)) = [] := by
    rw [List.filter_eq_nil_iff]
    intro k hk
    simp only [decide_eq_true_eq]
    exact not_lt.mpr (hall k hk)
  have hfail : (manual_trigger_precheck_reset s).fail =
      ((s.fail.take 5).map (fun kv => kv.1)).foldl (fun acc k => dictSet acc k 0) s.fail := by
    unfold manual_trigger_precheck_reset
    rw [hen, hip]
    simp only [Bool.not_true, Bool.false_eq_true, if_false]
    rw [hfilter]
    rfl
  constructor
  · intro k hk
    rw [hfail, dictGet_foldl_zero, if_pos hk]
  · intro k hk
    rw [hfail, dictGet_foldl_zero, if_neg hk]

/-- C10 witness: the enabled sample pool with both counts at or above
`MAX_FAILURES = 3`. -/
theorem c10_witness :
    (samplePool true).precheckEnabled = true ∧
    (samplePool true).precheckInProgress = false ∧
    (∀ k ∈ (samplePool true).apiKeys,
      (samplePool true).MAX ≤ dictGetD (samplePool true).fail k 0) ∧
    ((∀ k ∈ ((samplePool true).fail.take 5).map (fun kv => kv.1),
        dictGet (manual_trigger_precheck_reset (samplePool true)).fail k = some 0) ∧
      (∀ k, k ∉ ((samplePool true).fail.take 5).map (fun kv => kv.1) →
        dictGet (manual_trigger_precheck_reset (samplePool true)).fail k =
          dictGet (samplePool true).fail k)) :=
  ⟨rfl, rfl, by decide,
   c10_manual_trigger_resets (samplePool true) rfl rfl (by decide)⟩

/-- Python `list.index(k)`: index of the first occurrence, `ValueError`
(modelled as `none`) when absent. -/
def pyIndex : List String → String → Option Nat
  | [], _ => none
  | x :: rest, k => if x = k then some 0 else (pyIndex rest k).map (fun i => i + 1)

theorem pyIndex_isSome_of_mem {l : List String} {k : String} (h : k ∈ l) :
    (pyIndex l k).isSome := by
  induction l with
  | nil => cases h
  | cons x rest ih =>
      by_cases hx : x = k
      · simp [pyIndex, hx]
      · rcases List.mem_cons.mp h with h1 | h1
        · exact absurd h1.symm hx
        · have hi := ih h1
          cases hg : pyIndex rest k with
          | none => rw [hg] at hi; simp at hi
          | some i => simp [pyIndex, hx, hg]

theorem pyIndex_get {l : List String} {k : String} {i : Nat} (h : pyIndex l k = some i) :
    l.get? i = some k ∧ i < l.length := by
  induction l generalizing i with
  | nil => cases h
  | cons x rest ih =>
      by_cases hx : x = k
      · simp only [pyIndex, if_pos hx] at h
        obtain rfl : (0 : Nat) = i := Option.some.inj h
        simp [hx]
      · simp only [pyIndex, if_neg hx] at h
        cases hg : pyIndex rest k with
        | none => rw [hg] at h; cases h
        | some j =>
            rw [hg] at h
            obtain rfl : j + 1 = i := Option.some.inj (by simpa using h)
            obtain ⟨hg2, hlt⟩ := ih hg
            refine ⟨by simpa using hg2, by simpa using hlt⟩

/-- Successor scan of `get_key_manager_instance` (lines 1450-1464): from the
first index of the preserved key `p` in the old list, walk the old list
cyclically and return the first candidate present in the new list. -/
def findStartKey (oldKeys newKeys : List String) (p : String) : Option String :=
  match pyIndex oldKeys p with
  | none => none
  | some startIdx =>
      ((List.range oldKeys.length).map
        (fun i => (oldKeys.get? ((startIdx + i) % oldKeys.length)).getD "")).find?
        (fun cand => decide (cand ∈ newKeys))

/-- Number of `next()` advances applied to the fresh cycle in
`get_key_manager_instance` (lines 1443-1507).  Python truthiness is modelled
faithfully: an empty-string preserved key or start key counts as "no key"
(`if _preserved_next_key_in_cycle`, `if start_key_for_new_cycle`), and a
missing preserved/start key leaves the cycle at index 0. -/
def newCycleStartIdx (oldKeys newKeys : List String) (preserved : Option String) : Nat :=
  let startKey : Option String :=
    match preserved with
    | none => none
    | some p =>
        if oldKeys = [] ∨ p = "" ∨ newKeys = [] then none
        else findStartKey oldKeys newKeys p
  match startKey with
  | none => 0
  | some sk =>
      if sk = "" then 0
      else
        match pyIndex newKeys sk with
        | none => 0
        | some i => i

/-- Key yielded by the first `get_next_key()` on the instance constructed
after a singleton reset that preserved `preserved` and the old key list. -/
def firstKeyAfterReset (oldKeys newKeys : List String) (preserved : Option String) :
    Option String :=
  (get_next_key newKeys (newCycleStartIdx oldKeys newKeys preserved)).map (fun kc => kc.1)

theorem findStartKey_mem {old new : List String} {p sk : String}
    (h : findStartKey old new p = some sk) : sk ∈ new := by
  unfold findStartKey at h
  cases hg : pyIndex old p with
  | none => rw [hg] at h; cases h
  | some i =>
      rw [hg] at h
      have h2 : ((List.range old.length).map
          (fun j => (old.get? ((i + j) % old.length)).getD "")).find?
          (fun cand => decide (cand ∈ new)) = some sk := h
      have h3 : decide (sk ∈ new) = true := by
        have h4 := List.find?_some h2
        exact h4
      exact of_decide_eq_true h3

theorem findStartKey_self {old new : List String} {p : String}
    (hpo : p ∈ old) (hpn : p ∈ new) : findStartKey old new p = some p := by
  obtain ⟨i, hi⟩ := Option.isSome_iff_exists.mp (pyIndex_isSome_of_mem hpo)
  obtain ⟨hget, hlt⟩ := pyIndex_get hi
  unfold findStartKey
  rw [hi]
  show ((List.range old.length).map
      (fun j => (old.get? ((i + j) % old.length)).getD "")).find?
      (fun cand => decide (cand ∈ new)) = some p
  have hsplit : List.range old.length = 0 :: (List.range (old.length - 1)).map Nat.succ := by
    obtain ⟨m, hm⟩ : ∃ m, old.length = m + 1 := ⟨old.length - 1, by omega⟩
    rw [hm, List.range_succ_eq_map]
    simp
  rw [hsplit, List.map_cons]
  have hc : (old.get? ((i + 0) % old.length)).getD "" = p := by
    rw [Nat.add_zero, Nat.mod_eq_of_lt hlt, hget]
    rfl
  rw [hc]
  apply List.find?_cons_of_pos
  exact decide_eq_true hpn

/-- C7 (amended): after a singleton reset that preserved next-key `p` (drawn
from the old list) and provided `p` is a non-empty string and the new list
is non-empty, the first post-reset `get_next_key()` returns `p` when `p` is
in the new list; otherwise it returns the first successor of `p` in the old
list's cyclic order that is present in the new list, as long as that
successor is non-empty (Python truthiness treats an empty-string start key
as absent); and when no old key is present in the new list the new cycle
starts at index 0. -/
theorem c7_reset_cycle (old new : List String) (p : String)
    (hpo : p ∈ old) (hp : p ≠ "") (hnew : new ≠ []) :
    (p ∈ new → firstKeyAfterReset old new (some p) = some p) ∧
    (∀ sk, findStartKey old new p = some sk → sk ≠ "" →
      firstKeyAfterReset old new (some p) = some sk) ∧
    (findStartKey old new p = none →
      firstKeyAfterReset old new (some p) = new.get? 0) := by
  have hold : old ≠ [] := List.ne_nil_of_mem hpo
  have hcond : ¬ (old = [] ∨ p = "" ∨ new = []) := by
    push_neg
    exact ⟨hold, hp, hnew⟩
  have main2 : ∀ sk, findStartKey old new p = some sk → sk ≠ "" →
      firstKeyAfterReset old new (some p) = some sk := by
    intro sk hsk hske
    have hmem : sk ∈ new := findStartKey_mem hsk
    obtain ⟨i, hi⟩ := Option.isSome_iff_exists.mp (pyIndex_isSome_of_mem hmem)
    obtain ⟨hget, hlt⟩ := pyIndex_get hi
    have hidx : newCycleStartIdx old new (some p) = i := by
      show (match (if old = [] ∨ p = "" ∨ new = [] then none
          else findStartKey old new p) with
        | none => 0
        | some sk =>
            if sk = "" then 0
            else
              match pyIndex new sk with
              | none => 0
              | some i => i) = i
      rw [if_neg hcond, hsk]
      show (if sk = "" then 0
        else
          match pyIndex new sk with
          | none => 0
          | some i => i) = i
      rw [if_neg hske, hi]
    unfold firstKeyAfterReset
    rw [hidx]
    unfold get_next_key
    rw [Nat.mod_eq_of_lt hlt, hget]
    rfl
  have main3 : findStartKey old new p = none →
      firstKeyAfterReset old new (some p) = new.get? 0 := by
    intro hnone
    have hidx : newCycleStartIdx old new (some p) = 0 := by
      show (match (if old = [] ∨ p = "" ∨ new = [] then none
          else findStartKey old new p) with
        | none => 0
        | some sk =>
            if sk = "" then 0
            else
              match pyIndex new sk with
              | none => 0
              | some i => i) = 0
      rw [if_neg hcond, hnone]
    unfold firstKeyAfterReset
    rw [hidx]
    unfold get_next_key
    rw [Nat.zero_mod]
    cases hg : new.get? 0 with
    | none => rfl
    | some a => rfl
  exact ⟨fun hpn => main2 p (findStartKey_self hpo hpn) hp, main2, main3⟩

/-- C7 counterexample: the empty-string key is falsy in Python, so with
`p = ""` present in both the old and the new list the rebuilt cycle starts
at index 0 and the first key is not `p`, contradicting the claim as
stated. -/
theorem c7_counterexample :
    ("" ∈ (["x", ""] : List String)) ∧
    firstKeyAfterReset ["", "x"] ["x", ""] (some "") = some "x" ∧
    firstKeyAfterReset ["", "x"] ["x", ""] (some "") ≠ some "" := by
  refine ⟨by decide, by decide, by decide⟩

/-- C7 witness: spec scenario S6 — old keys `[a,b,c,d]`, preserved next key
`c`, new list `[b,c,d,e]`. -/
theorem c7_witness :
    ("c" ∈ (["a", "b", "c", "d"] : List String)) ∧
    ("c" : String) ≠ "" ∧
    (["b", "c", "d", "e"] : List String) ≠ [] ∧
    ((("c" : String) ∈ (["b", "c", "d", "e"] : List String) →
        firstKeyAfterReset ["a", "b", "c", "d"] ["b", "c", "d", "e"] (some "c") =
          some "c") ∧
      (∀ sk, findStartKey ["a", "b", "c", "d"] ["b", "c", "d", "e"] "c" = some sk →
        sk ≠ "" →
        firstKeyAfterReset ["a", "b", "c", "d"] ["b", "c", "d", "e"] (some "c") =
          some sk) ∧
      (findStartKey ["a", "b", "c", "d"] ["b", "c", "d", "e"] "c" = none →
        firstKeyAfterReset ["a", "b", "c", "d"] ["b", "c", "d", "e"] (some "c") =
          (["b", "c", "d", "e"] : List String).get? 0)) :=
  ⟨by decide, by decide, by decide,
   c7_reset_cycle ["a", "b", "c", "d"] ["b", "c", "d", "e"] "c"
     (by decide) (by decide) (by decide)⟩
